import Mathlib

/-!
Shallow embedding of `src/bot.py` (Discord-ARR-Download-Tracker).

The reconciliation core (`handle_messages`, lines 245-307), the batcher
(`split_embeds`, lines 235-237), the upstream retry loops (`query_sonarr`
lines 60-79, `query_radarr` lines 152-171), the rate-limit handler
(`handle_rate_limit`, lines 309-317) and the progress-bar formatter
(`format_progress_bar`, lines 35-45) are translated into executable Lean
functions.

Conventions of the embedding:
* Remote Discord messages are identified by natural-number handles; a fresh
  handle is drawn from a counter in `World`.
* The outcome of each remote call (`Message.edit`, `Message.delete`,
  `channel.send`) is supplied by an `Env` oracle, keyed by the message handle
  the call touches; `.success` means the awaited call returns normally,
  `.notFound` means it raises `discord.errors.NotFound` (the only exception
  the source catches in these paths), `.other` means it raises some other
  exception, which propagates out of `handle_messages` uncaught (modelled as
  `Except.error ()` — the payload of the exception is irrelevant here).
* The global dict `bot_messages` maps batch ids `f'batch_{i}'` to
  `{'message': msg, 'active': bool}`.  The batch ids are in bijection with
  the batch indices `i`, so the map is modelled as an insertion-ordered
  association list from `Nat` to `Slot`, with Python-dict semantics
  (`dlookup`, `dinsert`, `derase` below).
* The `default_message` global ("EMPTY placeholder") is an `Option Nat`
  handle, passed in and returned exactly as the source function does.
* Embed/card contents are never inspected by the reconciler, so the embed
  list is a `List α` for an arbitrary `α`.
-/

namespace ArrTracker

/-- Outcome of one awaited remote Discord call. -/
inductive CallRes
  | success
  | notFound
  | other
deriving DecidableEq

/-- Oracle giving the outcome of each remote call.  `editRes m` / `delRes m`
are the outcomes of `m.edit(...)` / `m.delete()`; `sendRes m` is the outcome
of the `channel.send(...)` that would create the message with fresh handle
`m`. -/
structure Env where
  editRes : Nat → CallRes
  delRes : Nat → CallRes
  sendRes : Nat → CallRes

/-- Environment in which every remote call succeeds. -/
def okEnv : Env :=
  ⟨fun _ => .success, fun _ => .success, fun _ => .success⟩

/-- Environment in which editing message 10 raises `NotFound` and every
other call succeeds. -/
def editNotFoundEnv : Env :=
  ⟨fun m => if m = 10 then .notFound else .success, fun _ => .success, fun _ => .success⟩

/-- Environment in which deleting message 11 raises `NotFound` and every
other call succeeds. -/
def delNotFoundEnv : Env :=
  ⟨fun _ => .success, fun m => if m = 11 then .notFound else .success, fun _ => .success⟩

/-- One entry of the `bot_messages` dict: `{'message': ..., 'active': ...}`. -/
structure Slot where
  message : Nat
  active : Bool
deriving DecidableEq

/-- The `bot_messages` dict, insertion-ordered, keyed by batch index. -/
abbrev Slots := List (Nat × Slot)

/-- The remote channel (list of live message handles, in creation order) and
the fresh-handle counter. -/
structure World where
  channel : List Nat
  nextId : Nat
deriving DecidableEq

/-- Remote mutation issued by the reconciler (the call is recorded even when
the oracle makes it fail). -/
inductive Op
  | create (id : Nat)
  | edit (id : Nat)
  | delete (id : Nat)
deriving DecidableEq

def isCreate : Op → Bool
  | .create _ => true
  | _ => false

def isDelete : Op → Bool
  | .delete _ => true
  | _ => false

def countCreates (ops : List Op) : Nat := ops.countP isCreate

def countDeletes (ops : List Op) : Nat := ops.countP isDelete

/-- Python dict read: `bot_messages[k]` / `k in bot_messages`. -/
def dlookup : Slots → Nat → Option Slot
  | [], _ => none
  | (k, v) :: rest, k' => if k = k' then some v else dlookup rest k'

/-- Python dict write `bot_messages[k] = v`: replaces the value in place if
the key is present, appends otherwise. -/
def dinsert : Slots → Nat → Slot → Slots
  | [], k, v => [(k, v)]
  | (k', v') :: rest, k, v =>
    if k' = k then (k, v) :: rest else (k', v') :: dinsert rest k v

/-- Python dict delete `del bot_messages[k]`. -/
def derase : Slots → Nat → Slots
  | [], _ => []
  | (k', v) :: rest, k =>
    if k' = k then derase rest k else (k', v) :: derase rest k

def keysOf (s : Slots) : List Nat := s.map Prod.fst

/-- Dict representation invariant: keys are pairwise distinct. -/
def NodupKeys (s : Slots) : Prop := (keysOf s).Nodup

/-- Lines 272-274: `bot_messages[message_id]['active'] = False` for every key. -/
def markInactive (s : Slots) : Slots :=
  s.map (fun p => (p.1, ⟨p.2.message, false⟩))

/-- Lines 235-237 (and the identical inline comprehension at line 277):
`[embeds[i:i + max_embeds] for i in range(0, len(embeds), max_embeds)]`.
`range(0, n, c)` enumerates `i*c` for `i < ⌈n/c⌉`, and the slice
`embeds[a:a+c]` is `(embeds.drop a).take c`.  The source default for
`max_embeds` is 10; call sites pass it explicitly here. -/
def split_embeds {α : Type*} (embeds : List α) (max_embeds : Nat) : List (List α) :=
  (List.range ((embeds.length + max_embeds - 1) / max_embeds)).map
    (fun i => (embeds.drop (i * max_embeds)).take max_embeds)

/-- Lines 251-256: iterate over a snapshot of `bot_messages.items()`, delete
each message remotely, and drop the entry from the dict; `NotFound` is logged
and — note — the `del` is skipped, so the entry stays in the dict; any other
exception propagates. -/
def delete_slots_loop (env : Env) :
    List (Nat × Slot) → Slots → World → List Op → Except Unit (Slots × World × List Op)
  | [], slots, w, ops => .ok (slots, w, ops)
  | (k, sl) :: rest, slots, w, ops =>
    match env.delRes sl.message with
    | .success =>
      delete_slots_loop env rest (derase slots k)
        ⟨w.channel.erase sl.message, w.nextId⟩ (ops ++ [.delete sl.message])
    | .notFound => delete_slots_loop env rest slots w (ops ++ [.delete sl.message])
    | .other => .error ()

/-- Lines 265-270: delete the default message; `NotFound` is logged and
swallowed, other exceptions propagate. -/
def delete_default (env : Env) (d : Nat) (w : World) (ops : List Op) :
    Except Unit (World × List Op) :=
  match env.delRes d with
  | .success => .ok (⟨w.channel.erase d, w.nextId⟩, ops ++ [.delete d])
  | .notFound => .ok (w, ops ++ [.delete d])
  | .other => .error ()

/-- Lines 264-270: `if default_message:` — the default message is deleted
only when it is currently displayed. -/
def default_sweep (env : Env) (dm : Option Nat) (w : World) :
    Except Unit (World × List Op) :=
  match dm with
  | some d => delete_default env d w []
  | none => .ok (w, [])

/-- Lines 280-296, body of the per-batch loop for batch index `i`: edit the
existing message for `batch_i` and mark it active, falling back to
`channel.send` (re-keying the slot to the new handle) when the edit raises
`NotFound`; if no slot exists, send a new message and register the slot. -/
def update_or_create (env : Env) (i : Nat) (slots : Slots) (w : World) (ops : List Op) :
    Except Unit (Slots × World × List Op) :=
  match dlookup slots i with
  | some sl =>
    match env.editRes sl.message with
    | .success => .ok (dinsert slots i ⟨sl.message, true⟩, w, ops ++ [.edit sl.message])
    | .notFound =>
      match env.sendRes w.nextId with
      | .success =>
        .ok (dinsert slots i ⟨w.nextId, true⟩, ⟨w.channel ++ [w.nextId], w.nextId + 1⟩,
          ops ++ [.edit sl.message, .create w.nextId])
      | _ => .error ()
    | .other => .error ()
  | none =>
    match env.sendRes w.nextId with
    | .success =>
      .ok (dinsert slots i ⟨w.nextId, true⟩, ⟨w.channel ++ [w.nextId], w.nextId + 1⟩,
        ops ++ [.create w.nextId])
    | _ => .error ()

/-- Lines 280-296: `for i, embed_batch in enumerate(batched_embeds)`.  The
batch contents are never read by the loop body (they only form the payload of
the edit/send), so only the shape of the batch list drives the recursion. -/
def process_batches {α : Type*} (env : Env) :
    Nat → List (List α) → Slots → World → List Op → Except Unit (Slots × World × List Op)
  | _, [], slots, w, ops => .ok (slots, w, ops)
  | i, _b :: rest, slots, w, ops =>
    match update_or_create env i slots w ops with
    | .error e => .error e
    | .ok (s', w', ops') => process_batches env (i + 1) rest s' w' ops'

/-- Lines 298-305: delete every slot still marked inactive; `NotFound` is
logged and — as at lines 251-256 — the `del` is skipped, so the entry stays
in the dict; other exceptions propagate. -/
def cleanup_loop (env : Env) :
    List (Nat × Slot) → Slots → World → List Op → Except Unit (Slots × World × List Op)
  | [], slots, w, ops => .ok (slots, w, ops)
  | (k, sl) :: rest, slots, w, ops =>
    if sl.active then cleanup_loop env rest slots w ops
    else
      match env.delRes sl.message with
      | .success =>
        cleanup_loop env rest (derase slots k)
          ⟨w.channel.erase sl.message, w.nextId⟩ (ops ++ [.delete sl.message])
      | .notFound => cleanup_loop env rest slots w (ops ++ [.delete sl.message])
      | .other => .error ()

/-- Lines 245-307, `handle_messages(channel, embeds, default_message=None)`.
Returns the new `default_message` (the source's return value), the updated
`bot_messages` dict, the updated world, and the list of remote mutation calls
issued, or `Except.error ()` when an uncaught exception propagates. -/
def handle_messages {α : Type*} (env : Env) (embeds : List α) (slots : Slots)
    (default_message : Option Nat) (w : World) :
    Except Unit (Option Nat × Slots × World × List Op) :=
  if embeds.isEmpty then
    -- lines 249-261: no active downloads
    match delete_slots_loop env slots slots w [] with
    | .error e => .error e
    | .ok (slots', w', ops) =>
      match default_message with
      | some d => .ok (some d, slots', w', ops)
      | none =>
        match env.sendRes w'.nextId with
        | .success =>
          .ok (some w'.nextId, slots',
            ⟨w'.channel ++ [w'.nextId], w'.nextId + 1⟩, ops ++ [.create w'.nextId])
        | _ => .error ()
  else
    -- lines 263-307: active downloads present
    match default_sweep env default_message w with
    | .error e => .error e
    | .ok (w₁, ops₁) =>
      let slots₁ := markInactive slots
      let batched := split_embeds embeds 10
      match process_batches env 0 batched slots₁ w₁ ops₁ with
      | .error e => .error e
      | .ok (slots₂, w₂, ops₂) =>
        match cleanup_loop env slots₂ slots₂ w₂ ops₂ with
        | .error e => .error e
        | .ok (slots₃, w₃, ops₃) => .ok (none, slots₃, w₃, ops₃)

/-! ## Upstream fetch retry loop (`query_sonarr` lines 60-79, `query_radarr`
lines 152-171)

The HTTP attempt (`requests.get` + `raise_for_status` + `.json()`) either
yields a parsed JSON body or raises a `RequestException`; the oracle
`fetch n` gives the outcome of attempt number `n` (counting from 0).  The
per-item embed construction (lines 81-150 / 173-233) only maps the parsed
body to a card list and is never inspected by any claim, so it is kept as an
abstract `render` parameter. -/

/-- Observable event of the retry loop: one HTTP attempt, or one
`time.sleep(delay)`. -/
inductive QEvent
  | attempt (n : Nat)
  | sleep (s : Nat)
deriving DecidableEq

def isAttempt : QEvent → Bool
  | .attempt _ => true
  | _ => false

def countAttempts (evs : List QEvent) : Nat := evs.countP isAttempt

/-- The `while retries < max_retries` loop shared verbatim by `query_sonarr`
and `query_radarr`: on success break out with the body; on
`RequestException` increment `retries`, and either sleep `delay` seconds and
retry, or (when retries have reached `max_retries`) give up with `None`
(source: `return []`). -/
def query_loop {J : Type*} (fetch : Nat → Option J) (max_retries delay retries : Nat) :
    Option J × List QEvent :=
  if _h : retries < max_retries then
    match fetch retries with
    | some j => (some j, [.attempt retries])
    | none =>
      if retries + 1 < max_retries then
        let r := query_loop fetch max_retries delay (retries + 1)
        (r.1, .attempt retries :: .sleep delay :: r.2)
      else (none, [.attempt retries])
  else (none, [])
termination_by max_retries - retries
decreasing_by omega

/-- Lines 60-79 plus the embed-building tail of lines 81-150.  The source
defaults are `max_retries=5, delay=10`; call sites pass them explicitly. -/
def query_sonarr {J γ : Type*} (render : J → List γ) (fetch : Nat → Option J)
    (max_retries delay : Nat) : List γ × List QEvent :=
  match query_loop fetch max_retries delay 0 with
  | (some j, evs) => (render j, evs)
  | (none, evs) => ([], evs)

/-- Lines 152-171 plus the embed-building tail of lines 173-233; the retry
scaffolding is byte-for-byte the same as `query_sonarr`'s. -/
def query_radarr {J γ : Type*} (render : J → List γ) (fetch : Nat → Option J)
    (max_retries delay : Nat) : List γ × List QEvent :=
  match query_loop fetch max_retries delay 0 with
  | (some j, evs) => (render j, evs)
  | (none, evs) => ([], evs)

/-! ## Rate-limit handler (`handle_rate_limit`, lines 309-317) -/

/-- The argument of `handle_rate_limit`: the error's status `code` and the
value of `error.response.json().get('retry_after')` (`none` when the JSON
body has no such key). -/
structure RLError where
  code : Nat
  retry_after : Option Nat
deriving DecidableEq

inductive RLEvent
  | sleep (t : Nat)
deriving DecidableEq

/-- Result of running `handle_rate_limit`: it returns normally after the
recorded awaits, re-raises a non-429 error (`raise error`), or crashes with
`TypeError` when `asyncio.sleep` is given the `None` obtained from a missing
`retry_after` key. -/
inductive RLOutcome
  | done (events : List RLEvent)
  | reraised (code : Nat)
  | typeError
deriving DecidableEq

/-- Lines 309-317: on a 429 error sleep for exactly the server-specified
`retry_after`, otherwise log and re-raise. -/
def handle_rate_limit (error : RLError) : RLOutcome :=
  if error.code = 429 then
    match error.retry_after with
    | some t => .done [.sleep t]
    | none => .typeError
  else .reraised error.code

/-! ## Progress bar (`format_progress_bar`, lines 35-45)

The Python arguments arrive as JSON values (`"size"` / `"sizeleft"` fields,
defaulting to the string `"N/A"`); the function first runs `int(...)` on
each.  An argument is modelled as `Option Int`: `some n` when `int(...)`
yields `n`, `none` when it raises `ValueError` (e.g. on `"N/A"`). -/

/-- One-decimal rendering of `(progress / size) * 100`, the string
interpolated by `{percentage:.1f}`.  Python formats the IEEE-754 double with
round-half-even; this model renders the exact rational rounded toward minus
infinity to one decimal place.  No claim depends on the digits of the
percentage, only on the overall shape of the returned string. -/
def fmtPct (progress sz : Int) : String :=
  let scaled : Int := Int.fdiv (progress * 1000) sz
  let sign := if scaled < 0 then "-" else ""
  sign ++ toString (scaled.natAbs / 10) ++ "." ++ toString (scaled.natAbs % 10)

/-- Lines 35-45.  `size = 0` raises `ZeroDivisionError` at
`(progress / size) * 100`; a failed `int(...)` raises `ValueError`; both are
caught and mapped to `"Progress unavailable"`.  `filled_length` is
`int(bar_length * progress // size)` — Python floor division, `Int.fdiv` —
and Python's `str * n` yields the empty string for negative `n`, which is
exactly `Int.toNat`'s clamping.  `bar_length` defaults to 20 in the source;
call sites pass it explicitly. -/
def format_progress_bar (size sizeleft : Option Int) (bar_length : Nat) : String :=
  match size, sizeleft with
  | some sz, some sl =>
    if sz = 0 then "Progress unavailable"
    else
      let progress : Int := sz - sl
      let filled : Int := Int.fdiv ((bar_length : Int) * progress) sz
      let bar := String.mk (List.replicate filled.toNat '█' ++
        List.replicate ((bar_length : Int) - filled).toNat '-')
      "[" ++ bar ++ "] " ++ fmtPct progress sz ++ "%"
  | _, _ => "Progress unavailable"

/-! ## Dictionary lemmas -/

@[simp] theorem dlookup_nil (k : Nat) : dlookup [] k = none := rfl

@[simp] theorem dlookup_cons (k' : Nat) (v : Slot) (rest : Slots) (k : Nat) :
    dlookup ((k', v) :: rest) k = if k' = k then some v else dlookup rest k := rfl

@[simp] theorem dinsert_nil (k : Nat) (v : Slot) : dinsert [] k v = [(k, v)] := rfl

@[simp] theorem dinsert_cons (k' : Nat) (v' : Slot) (rest : Slots) (k : Nat) (v : Slot) :
    dinsert ((k', v') :: rest) k v =
      if k' = k then (k, v) :: rest else (k', v') :: dinsert rest k v := rfl

@[simp] theorem derase_nil (k : Nat) : derase [] k = [] := rfl

@[simp] theorem derase_cons (k' : Nat) (v : Slot) (rest : Slots) (k : Nat) :
    derase ((k', v) :: rest) k =
      if k' = k then derase rest k else (k', v) :: derase rest k := rfl

@[simp] theorem keysOf_nil : keysOf [] = [] := rfl

@[simp] theorem keysOf_cons (k : Nat) (v : Slot) (rest : Slots) :
    keysOf ((k, v) :: rest) = k :: keysOf rest := rfl

@[simp] theorem markInactive_nil : markInactive [] = [] := rfl

@[simp] theorem markInactive_cons (k : Nat) (v : Slot) (rest : Slots) :
    markInactive ((k, v) :: rest) = (k, ⟨v.message, false⟩) :: markInactive rest := rfl

@[simp] theorem nodupKeys_nil : NodupKeys [] := List.nodup_nil

theorem nodupKeys_cons_iff (k : Nat) (v : Slot) (rest : Slots) :
    NodupKeys ((k, v) :: rest) ↔ k ∉ keysOf rest ∧ NodupKeys rest := by
  unfold NodupKeys
  simp

theorem dlookup_dinsert_self (s : Slots) (k : Nat) (v : Slot) :
    dlookup (dinsert s k v) k = some v := by
  induction s with
  | nil => simp
  | cons p rest ih =>
    obtain ⟨k', v'⟩ := p
    by_cases h : k' = k
    · subst h; simp
    · simp [h, ih]

theorem dlookup_dinsert_ne (s : Slots) (k k' : Nat) (v : Slot) (h : k ≠ k') :
    dlookup (dinsert s k v) k' = dlookup s k' := by
  induction s with
  | nil => simp [h]
  | cons p rest ih =>
    obtain ⟨k₀, v₀⟩ := p
    by_cases h₀ : k₀ = k
    · subst h₀; simp [h]
    · simp [h₀, ih]

theorem keysOf_dinsert_of_mem (s : Slots) (k : Nat) (v : Slot)
    (h : k ∈ keysOf s) : keysOf (dinsert s k v) = keysOf s := by
  induction s with
  | nil => simp at h
  | cons p rest ih =>
    obtain ⟨k₀, v₀⟩ := p
    by_cases h₀ : k₀ = k
    · subst h₀; simp
    · simp only [keysOf_cons, List.mem_cons] at h
      rcases h with h | h
      · exact absurd h.symm h₀
      · simp [h₀, ih h]

theorem keysOf_dinsert_of_not_mem (s : Slots) (k : Nat) (v : Slot)
    (h : k ∉ keysOf s) : keysOf (dinsert s k v) = keysOf s ++ [k] := by
  induction s with
  | nil => simp
  | cons p rest ih =>
    obtain ⟨k₀, v₀⟩ := p
    simp only [keysOf_cons, List.mem_cons] at h
    push_neg at h
    simp [Ne.symm h.1, ih h.2]

theorem mem_keysOf_iff (s : Slots) (k : Nat) :
    k ∈ keysOf s ↔ (dlookup s k).isSome := by
  induction s with
  | nil => simp
  | cons p rest ih =>
    obtain ⟨k₀, v₀⟩ := p
    by_cases h : k₀ = k
    · subst h; simp
    · have h' : ¬ k = k₀ := fun hc => h hc.symm
      simp [h, h', ih]

theorem dlookup_eq_none_iff (s : Slots) (k : Nat) :
    dlookup s k = none ↔ k ∉ keysOf s := by
  rw [mem_keysOf_iff]
  cases dlookup s k <;> simp

theorem nodupKeys_dinsert (s : Slots) (k : Nat) (v : Slot) (h : NodupKeys s) :
    NodupKeys (dinsert s k v) := by
  by_cases hm : k ∈ keysOf s
  · unfold NodupKeys
    rw [keysOf_dinsert_of_mem s k v hm]
    exact h
  · unfold NodupKeys
    rw [keysOf_dinsert_of_not_mem s k v hm]
    simpa [List.nodup_append] using ⟨h, hm⟩

theorem dlookup_derase_self (s : Slots) (k : Nat) : dlookup (derase s k) k = none := by
  induction s with
  | nil => simp
  | cons p rest ih =>
    obtain ⟨k₀, v₀⟩ := p
    by_cases h : k₀ = k
    · subst h; simp [ih]
    · simp [h, ih]

theorem dlookup_derase_ne (s : Slots) (k k' : Nat) (h : k ≠ k') :
    dlookup (derase s k) k' = dlookup s k' := by
  induction s with
  | nil => simp
  | cons p rest ih =>
    obtain ⟨k₀, v₀⟩ := p
    by_cases h₀ : k₀ = k
    · subst h₀; simp [h, ih]
    · simp [h₀, ih]

theorem keysOf_derase_subset (s : Slots) (k x : Nat)
    (h : x ∈ keysOf (derase s k)) : x ∈ keysOf s ∧ x ≠ k := by
  induction s with
  | nil => simp at h
  | cons p rest ih =>
    obtain ⟨k₀, v₀⟩ := p
    by_cases h₀ : k₀ = k
    · subst h₀
      simp only [derase_cons, if_pos rfl] at h
      rcases ih h with ⟨h₁, h₂⟩
      exact ⟨by simp [h₁], h₂⟩
    · simp only [derase_cons, if_neg h₀, keysOf_cons, List.mem_cons] at h ⊢
      rcases h with h | h
      · exact ⟨Or.inl h, h ▸ h₀⟩
      · rcases ih h with ⟨h₁, h₂⟩
        exact ⟨Or.inr h₁, h₂⟩

theorem nodupKeys_derase (s : Slots) (k : Nat) (h : NodupKeys s) :
    NodupKeys (derase s k) := by
  induction s with
  | nil => simp
  | cons p rest ih =>
    obtain ⟨k₀, v₀⟩ := p
    rw [nodupKeys_cons_iff] at h
    by_cases h₀ : k₀ = k
    · subst h₀; simpa using ih h.2
    · simp only [derase_cons, if_neg h₀, nodupKeys_cons_iff]
      refine ⟨fun hc => ?_, ih h.2⟩
      exact h.1 (keysOf_derase_subset rest k k₀ hc).1

theorem dlookup_markInactive (s : Slots) (k : Nat) :
    dlookup (markInactive s) k =
      (dlookup s k).map (fun sl => ⟨sl.message, false⟩) := by
  induction s with
  | nil => simp
  | cons p rest ih =>
    obtain ⟨k₀, v₀⟩ := p
    by_cases h : k₀ = k
    · subst h; simp
    · simp [h, ih]

theorem keysOf_markInactive (s : Slots) : keysOf (markInactive s) = keysOf s := by
  induction s with
  | nil => simp
  | cons p rest ih =>
    obtain ⟨k₀, v₀⟩ := p
    simp [ih]

theorem nodupKeys_markInactive (s : Slots) (h : NodupKeys s) :
    NodupKeys (markInactive s) := by
  unfold NodupKeys
  rw [keysOf_markInactive]
  exact h

theorem mem_of_dlookup (s : Slots) (k : Nat) (v : Slot)
    (h : dlookup s k = some v) : (k, v) ∈ s := by
  induction s with
  | nil => simp at h
  | cons p rest ih =>
    obtain ⟨k₀, v₀⟩ := p
    by_cases h₀ : k₀ = k
    · subst h₀
      simp at h
      simp [h]
    · simp only [dlookup_cons, if_neg h₀] at h
      exact List.mem_cons_of_mem _ (ih h)

theorem dlookup_of_mem (s : Slots) (k : Nat) (v : Slot)
    (hnd : NodupKeys s) (h : (k, v) ∈ s) : dlookup s k = some v := by
  induction s with
  | nil => simp at h
  | cons p rest ih =>
    obtain ⟨k₀, v₀⟩ := p
    rw [nodupKeys_cons_iff] at hnd
    rcases List.mem_cons.mp h with h | h
    · rw [Prod.mk.injEq] at h
      obtain ⟨rfl, rfl⟩ := h
      simp
    · have hk : k₀ ≠ k := by
        intro hc
        subst hc
        exact hnd.1 (show _ ∈ keysOf rest from List.mem_map.mpr ⟨(k₀, v), h, rfl⟩)
      simp only [dlookup_cons, if_neg hk]
      exact ih hnd.2 h

theorem eq_nil_of_dlookup_none (s : Slots) (h : ∀ k, dlookup s k = none) : s = [] := by
  cases s with
  | nil => rfl
  | cons p rest =>
    obtain ⟨k₀, v₀⟩ := p
    have := h k₀
    simp at this

/-! ## The empty-embeds deletion sweep (lines 249-261) -/

@[simp] theorem okEnv_edit (m : Nat) : okEnv.editRes m = .success := rfl

@[simp] theorem okEnv_del (m : Nat) : okEnv.delRes m = .success := rfl

@[simp] theorem okEnv_send (m : Nat) : okEnv.sendRes m = .success := rfl

/-- Under `okEnv` the sweep of lines 251-256 deletes every snapshot entry:
each key is erased from the dict, each message handle is erased from the
channel, and one delete call per entry is recorded. -/
theorem delete_slots_loop_okEnv (items : List (Nat × Slot)) :
    ∀ (slots : Slots) (w : World) (ops : List Op),
      delete_slots_loop okEnv items slots w ops =
        .ok (items.foldl (fun s p => derase s p.1) slots,
          ⟨items.foldl (fun c p => c.erase p.2.message) w.channel, w.nextId⟩,
          ops ++ items.map (fun p => Op.delete p.2.message)) := by
  induction items with
  | nil => intro slots w ops; simp [delete_slots_loop]
  | cons p rest ih =>
    intro slots w ops
    obtain ⟨k, sl⟩ := p
    simp only [delete_slots_loop, okEnv_del, List.foldl_cons, List.map_cons]
    rw [ih]
    simp

/-- Erasing every snapshot key from the dict empties it whenever the dict's
keys all occur in the snapshot. -/
theorem foldl_derase_eq_nil (items : List (Nat × Slot)) :
    ∀ (slots : Slots), keysOf slots ⊆ keysOf items →
      items.foldl (fun s p => derase s p.1) slots = [] := by
  induction items with
  | nil =>
    intro slots h
    simp only [List.foldl_nil]
    cases slots with
    | nil => rfl
    | cons p rest =>
      obtain ⟨k, v⟩ := p
      exact absurd (h (show k ∈ keysOf ((k, v) :: rest) by simp)) (by simp)
  | cons p rest ih =>
    intro slots h
    obtain ⟨k, sl⟩ := p
    simp only [List.foldl_cons]
    refine ih _ (fun x hx => ?_)
    rcases keysOf_derase_subset slots k x hx with ⟨h₁, h₂⟩
    rcases List.mem_cons.mp (h h₁) with h₃ | h₃
    · exact absurd h₃ h₂
    · exact h₃

/-- Erasing the snapshot's message handles from a channel that starts with
exactly those handles leaves the remaining suffix. -/
theorem foldl_erase_channel (items : List (Nat × Slot)) :
    ∀ (rest : List Nat),
      items.foldl (fun c p => c.erase p.2.message)
        (items.map (fun p => p.2.message) ++ rest) = rest := by
  induction items with
  | nil => intro rest; simp
  | cons p tail ih =>
    intro rest
    obtain ⟨k, sl⟩ := p
    simp only [List.map_cons, List.cons_append, List.foldl_cons, List.erase_cons_head]
    exact ih rest

/-! ## The per-batch loop (lines 280-296) -/

/-- Characterization of `process_batches` when every edit and send succeeds
(the environment may still fail deletes arbitrarily; the loop issues none):
the loop never raises, every processed index ends up with an active slot,
all other keys are untouched, and key distinctness is preserved. -/
theorem process_batches_spec {α : Type*} (env : Env)
    (Hedit : ∀ m, env.editRes m = .success)
    (Hsend : ∀ m, env.sendRes m = .success)
    (batches : List (List α)) :
    ∀ (i : Nat) (slots : Slots) (w : World) (ops : List Op),
      ∃ s' w' ops', process_batches env i batches slots w ops = .ok (s', w', ops') ∧
        (∀ k, i ≤ k → k < i + batches.length → ∃ m, dlookup s' k = some ⟨m, true⟩) ∧
        (∀ k, k < i ∨ i + batches.length ≤ k → dlookup s' k = dlookup slots k) ∧
        (NodupKeys slots → NodupKeys s') := by
  induction batches with
  | nil =>
    intro i slots w ops
    refine ⟨slots, w, ops, rfl, ?_, ?_, ?_⟩
    · intro k h₁ h₂
      simp only [List.length_nil] at h₂
      omega
    · intro k _; rfl
    · exact id
  | cons b rest ih =>
    intro i slots w ops
    have hlen : (b :: rest).length = rest.length + 1 := rfl
    have step : ∃ v : Slot, v.active = true ∧ ∃ w₁ ops₁,
        update_or_create env i slots w ops = .ok (dinsert slots i v, w₁, ops₁) := by
      cases hl : dlookup slots i with
      | some sl =>
        refine ⟨⟨sl.message, true⟩, rfl, w, ops ++ [.edit sl.message], ?_⟩
        simp only [update_or_create, hl, Hedit]
      | none =>
        refine ⟨⟨w.nextId, true⟩, rfl, ⟨w.channel ++ [w.nextId], w.nextId + 1⟩,
          ops ++ [.create w.nextId], ?_⟩
        simp only [update_or_create, hl, Hsend]
    obtain ⟨v, hv, w₁, ops₁, hstep⟩ := step
    obtain ⟨s', w', ops', hrun, hin, hout, hnd⟩ := ih (i + 1) (dinsert slots i v) w₁ ops₁
    refine ⟨s', w', ops', ?_, ?_, ?_, ?_⟩
    · simp only [process_batches, hstep, hrun]
    · intro k h₁ h₂
      by_cases hk : k = i
      · subst hk
        rw [hout k (Or.inl (by omega)), dlookup_dinsert_self]
        refine ⟨v.message, ?_⟩
        cases v
        simp_all
      · exact hin k (by omega) (by omega)
    · intro k hk
      have hk' : ¬ i = k := by omega
      rw [hout k (by omega), dlookup_dinsert_ne slots i k v hk']
    · intro hs
      exact hnd (nodupKeys_dinsert slots i v hs)

/-- Characterization of `process_batches` when every edit succeeds and every
processed index already has a slot: no message is created, the world is
untouched, the recorded calls are all edits, each processed slot keeps its
handle and is re-marked active, and the key list is unchanged. -/
theorem process_batches_all_present {α : Type*} (env : Env)
    (Hedit : ∀ m, env.editRes m = .success)
    (batches : List (List α)) :
    ∀ (i : Nat) (slots : Slots) (w : World) (ops : List Op),
      (∀ k, i ≤ k → k < i + batches.length → (dlookup slots k).isSome) →
      ∃ s' newOps, process_batches env i batches slots w ops = .ok (s', w, ops ++ newOps) ∧
        (∀ o ∈ newOps, ∃ m, o = Op.edit m) ∧
        (∀ k, dlookup s' k =
          if i ≤ k ∧ k < i + batches.length
          then (dlookup slots k).map (fun sl => ⟨sl.message, true⟩)
          else dlookup slots k) ∧
        keysOf s' = keysOf slots := by
  induction batches with
  | nil =>
    intro i slots w ops _
    refine ⟨slots, [], by simp [process_batches], by simp, ?_, rfl⟩
    intro k
    rw [if_neg (by simp only [List.length_nil]; omega)]
  | cons b rest ih =>
    intro i slots w ops hpres
    have hlen : (b :: rest).length = rest.length + 1 := rfl
    obtain ⟨sl, hsl⟩ := Option.isSome_iff_exists.mp (hpres i le_rfl (by omega))
    have hstep : update_or_create env i slots w ops =
        .ok (dinsert slots i ⟨sl.message, true⟩, w, ops ++ [.edit sl.message]) := by
      simp only [update_or_create, hsl, Hedit]
    have hpres' : ∀ k, i + 1 ≤ k → k < (i + 1) + rest.length →
        (dlookup (dinsert slots i ⟨sl.message, true⟩) k).isSome := by
      intro k h₁ h₂
      rw [dlookup_dinsert_ne slots i k _ (by omega)]
      exact hpres k (by omega) (by omega)
    obtain ⟨s', newOps, hrun, hops, hchar, hkeys⟩ :=
      ih (i + 1) (dinsert slots i ⟨sl.message, true⟩) w (ops ++ [.edit sl.message]) hpres'
    refine ⟨s', .edit sl.message :: newOps, ?_, ?_, ?_, ?_⟩
    · simp only [process_batches, hstep, hrun, List.append_assoc, List.singleton_append]
    · intro o ho
      rcases List.mem_cons.mp ho with ho | ho
      · exact ⟨sl.message, ho⟩
      · exact hops o ho
    · intro k
      rw [hchar k]
      by_cases hk : k = i
      · subst hk
        rw [if_neg (by omega), if_pos ⟨le_rfl, by omega⟩, dlookup_dinsert_self, hsl]
        rfl
      · by_cases hr : i + 1 ≤ k ∧ k < (i + 1) + rest.length
        · rw [if_pos hr, if_pos (by omega),
            dlookup_dinsert_ne slots i k _ (fun hc => hk hc.symm)]
        · rw [if_neg hr, if_neg (by omega),
            dlookup_dinsert_ne slots i k _ (fun hc => hk hc.symm)]
    · rw [hkeys, keysOf_dinsert_of_mem slots i _ ((mem_keysOf_iff slots i).mpr
        (by rw [hsl]; rfl))]

/-! ## The stale-slot cleanup loop (lines 298-305) -/

/-- When every snapshot entry is active the cleanup loop does nothing. -/
theorem cleanup_loop_all_active (env : Env) (items : List (Nat × Slot)) :
    ∀ (slots : Slots) (w : World) (ops : List Op),
      (∀ p ∈ items, (p : Nat × Slot).2.active = true) →
      cleanup_loop env items slots w ops = .ok (slots, w, ops) := by
  induction items with
  | nil => intro slots w ops _; rfl
  | cons p rest ih =>
    intro slots w ops h
    obtain ⟨k, sl⟩ := p
    have hsl : sl.active = true := h (k, sl) (List.mem_cons_self _ _)
    simp only [cleanup_loop, hsl, if_true]
    exact ih slots w ops (fun q hq => h q (List.mem_cons_of_mem _ hq))

/-- Characterization of the cleanup loop over a snapshot with distinct keys,
each bound in the dict to its snapshot value, when no inactive entry's
delete raises anything but `NotFound`: the loop completes; untouched keys
keep their binding; an active entry keeps its binding; an inactive entry
gets exactly one delete call, after which its key is gone from the dict if
the delete succeeded but — the `del` being skipped in the `except` arm —
still bound if the delete raised `NotFound`. -/
theorem cleanup_loop_spec (env : Env) (items : List (Nat × Slot)) :
    ∀ (slots : Slots) (w : World) (ops : List Op),
      (List.map Prod.fst items).Nodup →
      (∀ p ∈ items, dlookup slots (p : Nat × Slot).1 = some p.2) →
      (∀ p ∈ items, (p : Nat × Slot).2.active = false → env.delRes p.2.message ≠ .other) →
      ∃ s' w' ops', cleanup_loop env items slots w ops = .ok (s', w', ops') ∧
        (∃ newOps, ops' = ops ++ newOps) ∧
        (∀ k, k ∉ List.map Prod.fst items → dlookup s' k = dlookup slots k) ∧
        (∀ p ∈ items, ((p : Nat × Slot).2.active = true → dlookup s' p.1 = some p.2) ∧
          (p.2.active = false →
            Op.delete p.2.message ∈ ops' ∧
            dlookup s' p.1 =
              (if env.delRes p.2.message = .success then none else some p.2))) ∧
        (NodupKeys slots → NodupKeys s') := by
  induction items with
  | nil =>
    intro slots w ops _ _ _
    exact ⟨slots, w, ops, rfl, ⟨[], by simp⟩, fun k _ => rfl, fun p hp => absurd hp
      (List.not_mem_nil p), id⟩
  | cons q rest ih =>
    intro slots w ops hnd hbind hdel
    obtain ⟨k, sl⟩ := q
    simp only [List.map_cons, List.nodup_cons] at hnd
    have hbk : dlookup slots k = some sl := hbind (k, sl) (List.mem_cons_self _ _)
    cases hact : sl.active with
    | true =>
      obtain ⟨s', w', ops', hrun, hext, hout, hitems, hnd'⟩ :=
        ih slots w ops hnd.2 (fun p hp => hbind p (List.mem_cons_of_mem _ hp))
          (fun p hp => hdel p (List.mem_cons_of_mem _ hp))
      refine ⟨s', w', ops', ?_, hext, ?_, ?_, hnd'⟩
      · simp only [cleanup_loop, hact, if_true]
        exact hrun
      · intro x hx
        exact hout x (fun hc => hx (List.mem_cons_of_mem _ hc))
      · intro p hp
        rcases List.mem_cons.mp hp with hp | hp
        · subst hp
          refine ⟨fun _ => ?_, fun hc => absurd hc (by simp [hact])⟩
          show dlookup s' k = some sl
          rw [hout k hnd.1, hbk]
        · exact hitems p hp
    | false =>
      have hd := hdel (k, sl) (List.mem_cons_self _ _) hact
      cases hres : env.delRes sl.message with
      | other => exact absurd hres hd
      | success =>
        obtain ⟨s', w', ops', hrun, hext, hout, hitems, hnd'⟩ :=
          ih (derase slots k) ⟨w.channel.erase sl.message, w.nextId⟩
            (ops ++ [.delete sl.message]) hnd.2
            (fun p hp => by
              rw [dlookup_derase_ne slots k p.1 (fun hc =>
                hnd.1 (hc ▸ List.mem_map.mpr ⟨p, hp, rfl⟩))]
              exact hbind p (List.mem_cons_of_mem _ hp))
            (fun p hp => hdel p (List.mem_cons_of_mem _ hp))
        obtain ⟨newOps, hnew⟩ := hext
        refine ⟨s', w', ops', ?_, ⟨.delete sl.message :: newOps, by
          simp [hnew, List.append_assoc]⟩, ?_, ?_, fun h => hnd' (nodupKeys_derase slots k h)⟩
        · simp only [cleanup_loop, hact, if_false, hres]
          exact hrun
        · intro x hx
          rw [hout x (fun hc => hx (List.mem_cons_of_mem _ hc)),
            dlookup_derase_ne slots k x (fun hc => hx (hc ▸ List.mem_cons_self _ _))]
        · intro p hp
          rcases List.mem_cons.mp hp with hp | hp
          · subst hp
            refine ⟨fun hc => absurd hc (by simp [hact]), fun _ => ⟨?_, ?_⟩⟩
            · show Op.delete sl.message ∈ ops'
              rw [hnew]
              simp
            · show dlookup s' k = _
              rw [if_pos hres, hout k hnd.1, dlookup_derase_self]
          · exact hitems p hp
      | notFound =>
        obtain ⟨s', w', ops', hrun, hext, hout, hitems, hnd'⟩ :=
          ih slots w (ops ++ [.delete sl.message]) hnd.2
            (fun p hp => hbind p (List.mem_cons_of_mem _ hp))
            (fun p hp => hdel p (List.mem_cons_of_mem _ hp))
        obtain ⟨newOps, hnew⟩ := hext
        refine ⟨s', w', ops', ?_, ⟨.delete sl.message :: newOps, by
          simp [hnew, List.append_assoc]⟩, ?_, ?_, hnd'⟩
        · simp only [cleanup_loop, hact, if_false, hres]
          exact hrun
        · intro x hx
          exact hout x (fun hc => hx (List.mem_cons_of_mem _ hc))
        · intro p hp
          rcases List.mem_cons.mp hp with hp | hp
          · subst hp
            refine ⟨fun hc => absurd hc (by simp [hact]), fun _ => ⟨?_, ?_⟩⟩
            · show Op.delete sl.message ∈ ops'
              rw [hnew]
              simp
            · show dlookup s' k = _
              rw [if_neg (by simp [hres]), hout k hnd.1, hbk]
          · exact hitems p hp

/-! ## Characterization of a whole reconciliation cycle with items present -/

theorem split_embeds_length {α : Type*} (l : List α) (c : Nat) :
    (split_embeds l c).length = (l.length + c - 1) / c := by
  simp [split_embeds]

/-- Unfolding of `handle_messages` on a non-empty embed list. -/
theorem handle_messages_ne_nil {α : Type*} (env : Env) (e : α) (es : List α)
    (slots : Slots) (dm : Option Nat) (w : World) :
    handle_messages env (e :: es) slots dm w =
      match default_sweep env dm w with
      | .error er => .error er
      | .ok (w₁, ops₁) =>
        match process_batches env 0 (split_embeds (e :: es) 10) (markInactive slots) w₁ ops₁ with
        | .error er => .error er
        | .ok (slots₂, w₂, ops₂) =>
          match cleanup_loop env slots₂ slots₂ w₂ ops₂ with
          | .error er => .error er
          | .ok (slots₃, w₃, ops₃) => .ok (none, slots₃, w₃, ops₃) := rfl

/-- Full characterization of a cycle with a non-empty embed list, for any
environment in which edits and sends succeed and deletes never raise anything
but `NotFound`.  Writing `B` for the number of batches
(`⌈len/10⌉ = (len+9)/10`): the run returns `None` as the new default
message; every batch index below `B` holds an active slot; every stale slot
(key `≥ B`) receives exactly one delete call, after which it is gone from
the dict if its delete succeeded and still present (inactive) if its delete
raised `NotFound`; keys absent before stay absent; key distinctness is
preserved. -/
theorem handle_messages_nonempty_spec {α : Type*} (env : Env)
    (Hedit : ∀ m, env.editRes m = .success)
    (Hsend : ∀ m, env.sendRes m = .success)
    (Hdel : ∀ m, env.delRes m ≠ .other)
    (embeds : List α) (hne : embeds ≠ []) (slots : Slots) (dm : Option Nat) (w : World)
    (hnd : NodupKeys slots) :
    ∃ s' w' ops, handle_messages env embeds slots dm w = .ok (none, s', w', ops) ∧
      NodupKeys s' ∧
      (∀ k, k < (embeds.length + 9) / 10 → ∃ m, dlookup s' k = some ⟨m, true⟩) ∧
      (∀ k sl, (embeds.length + 9) / 10 ≤ k → dlookup slots k = some sl →
        Op.delete sl.message ∈ ops ∧
        dlookup s' k = (if env.delRes sl.message = .success then none
                        else some ⟨sl.message, false⟩)) ∧
      (∀ k, (embeds.length + 9) / 10 ≤ k → dlookup slots k = none → dlookup s' k = none) := by
  cases embeds with
  | nil => exact absurd rfl hne
  | cons e es =>
  have hBlen : (split_embeds (e :: es) 10).length = ((e :: es).length + 9) / 10 := by
    rw [split_embeds_length]
    omega
  obtain ⟨w₁, ops₁, hw₁⟩ : ∃ w₁ ops₁, default_sweep env dm w = .ok (w₁, ops₁) := by
    cases dm with
    | none => exact ⟨w, [], rfl⟩
    | some d =>
      cases hd : env.delRes d with
      | success =>
        exact ⟨⟨w.channel.erase d, w.nextId⟩, [.delete d],
          by simp [default_sweep, delete_default, hd]⟩
      | notFound => exact ⟨w, [.delete d], by simp [default_sweep, delete_default, hd]⟩
      | other => exact absurd hd (Hdel d)
  obtain ⟨s₂, w₂, ops₂, hrun₂, hin₂, hout₂, hnd₂⟩ :=
    process_batches_spec env Hedit Hsend (split_embeds (e :: es) 10) 0
      (markInactive slots) w₁ ops₁
  have hnd₂' : NodupKeys s₂ := hnd₂ (nodupKeys_markInactive slots hnd)
  obtain ⟨s₃, w₃, ops₃, hrun₃, _hext₃, hout₃, hitems₃, hnd₃⟩ :=
    cleanup_loop_spec env s₂ s₂ w₂ ops₂ hnd₂'
      (fun p hp => dlookup_of_mem s₂ p.1 p.2 hnd₂' hp)
      (fun p _ _ => Hdel p.2.message)
  have hrun : handle_messages env (e :: es) slots dm w = .ok (none, s₃, w₃, ops₃) := by
    rw [handle_messages_ne_nil, hw₁]
    simp only [hrun₂, hrun₃]
  refine ⟨s₃, w₃, ops₃, hrun, hnd₃ hnd₂', ?_, ?_, ?_⟩
  · intro k hk
    obtain ⟨m, hm⟩ := hin₂ k (Nat.zero_le k) (by rw [Nat.zero_add, hBlen]; exact hk)
    exact ⟨m, (hitems₃ (k, ⟨m, true⟩) (mem_of_dlookup s₂ k _ hm)).1 rfl⟩
  · intro k sl hk hbind
    have h2 : dlookup s₂ k = some ⟨sl.message, false⟩ := by
      rw [hout₂ k (Or.inr (by rw [Nat.zero_add, hBlen]; exact hk)),
        dlookup_markInactive, hbind]
      rfl
    exact (hitems₃ (k, ⟨sl.message, false⟩) (mem_of_dlookup s₂ k _ h2)).2 rfl
  · intro k hk hnone
    have h2 : dlookup s₂ k = none := by
      rw [hout₂ k (Or.inr (by rw [Nat.zero_add, hBlen]; exact hk)),
        dlookup_markInactive, hnone]
      rfl
    rw [hout₃ k ((dlookup_eq_none_iff s₂ k).mp h2), h2]

/-! ## Retry-loop lemmas -/

/-- Bounds on the retry loop: at most `max_retries - retries` attempts are
made, and every recorded sleep lasts exactly `delay` seconds. -/
theorem query_loop_bounds {J : Type*} (fetch : Nat → Option J) (mr d : Nat) :
    ∀ (fuel r : Nat), mr - r ≤ fuel →
      countAttempts (query_loop fetch mr d r).2 ≤ mr - r ∧
      (∀ s, QEvent.sleep s ∈ (query_loop fetch mr d r).2 → s = d) := by
  intro fuel
  induction fuel with
  | zero =>
    intro r hr
    rw [query_loop, dif_neg (by omega)]
    exact ⟨by simp [countAttempts], by simp⟩
  | succ n ih =>
    intro r hr
    rw [query_loop]
    by_cases h : r < mr
    · rw [dif_pos h]
      cases hf : fetch r with
      | some j =>
        dsimp only
        refine ⟨?_, by simp⟩
        have h1 : countAttempts [QEvent.attempt r] = 1 := by
          simp [countAttempts, isAttempt]
        omega
      | none =>
        dsimp only
        by_cases h2 : r + 1 < mr
        · rw [if_pos h2]
          dsimp only
          obtain ⟨ihc, ihs⟩ := ih (r + 1) (by omega)
          constructor
          · have h1 : countAttempts
                (QEvent.attempt r :: QEvent.sleep d :: (query_loop fetch mr d (r + 1)).2) =
                countAttempts (query_loop fetch mr d (r + 1)).2 + 1 := by
              simp [countAttempts, isAttempt]
            omega
          · intro s hs
            rcases List.mem_cons.mp hs with hs | hs
            · exact absurd hs (by simp)
            · rcases List.mem_cons.mp hs with hs | hs
              · simpa using hs
              · exact ihs s hs
        · rw [if_neg h2]
          dsimp only
          refine ⟨?_, by simp⟩
          have h1 : countAttempts [QEvent.attempt r] = 1 := by
            simp [countAttempts, isAttempt]
          omega
    · rw [dif_neg h]
      exact ⟨by simp [countAttempts], by simp⟩

/-- The fetcher's event trace is the retry loop's, whether it got a body. -/
theorem query_sonarr_events {J γ : Type*} (render : J → List γ)
    (fetch : Nat → Option J) (mr d : Nat) :
    (query_sonarr render fetch mr d).2 = (query_loop fetch mr d 0).2 := by
  unfold query_sonarr
  rcases h : query_loop fetch mr d 0 with ⟨j, evs⟩
  cases j <;> simp

/-- The same for the movie-service fetcher. -/
theorem query_radarr_events {J γ : Type*} (render : J → List γ)
    (fetch : Nat → Option J) (mr d : Nat) :
    (query_radarr render fetch mr d).2 = (query_loop fetch mr d 0).2 := by
  unfold query_radarr
  rcases h : query_loop fetch mr d 0 with ⟨j, evs⟩
  cases j <;> simp

/-! ## Claims -/

/-- C2: for every ordered list of cards and capacity 10, batching is
deterministic: page `i` holds exactly the cards at input positions
`[i*10, (i+1)*10)` in input order, every page holds at most 10 cards, the
number of pages equals `⌈N/10⌉`, and the empty input yields zero pages. -/
theorem claim_C2_batching {α : Type*} (l : List α) :
    (split_embeds l 10).length = (l.length + 9) / 10 ∧
    (∀ p ∈ split_embeds l 10, p.length ≤ 10) ∧
    (∀ i j, j < 10 →
      ((split_embeds l 10)[i]?.bind (fun p => p[j]?)) = l[i * 10 + j]?) ∧
    split_embeds ([] : List α) 10 = [] := by
  refine ⟨?_, ?_, ?_, by simp [split_embeds]⟩
  · rw [split_embeds_length]
    omega
  · intro p hp
    simp only [split_embeds, List.mem_map, List.mem_range] at hp
    obtain ⟨i, _, rfl⟩ := hp
    rw [List.length_take]
    exact Nat.min_le_left _ _
  · intro i j hj
    by_cases hi : i < (l.length + 10 - 1) / 10
    · unfold split_embeds
      rw [List.getElem?_map, List.getElem?_range hi]
      simp only [Option.map_some', Option.some_bind]
      rw [List.getElem?_take_of_lt hj, List.getElem?_drop]
    · have hlen : l.length ≤ i * 10 + j := by omega
      have h₁ : (split_embeds l 10)[i]? = none := by
        apply List.getElem?_eq_none
        rw [split_embeds_length]
        omega
      rw [h₁, Option.none_bind, List.getElem?_eq_none hlen]

/-- C2 witness: the batching law evaluated on a concrete 23-element list. -/
theorem claim_C2_batching_witness :
    ((split_embeds (List.range 23) 10)[1]?.bind (fun p => p[3]?)) =
      (List.range 23)[1 * 10 + 3]? :=
  (claim_C2_batching (List.range 23)).2.2.1 1 3 (by decide)

/-- C5: for every page index `i` whose slot exists but whose edit fails with
not-found, the loop body issues exactly one create call, re-keys slot `i` to
the newly created handle (marked active), and leaves no duplicate slot for
`i` in the map (the key list is unchanged, so key distinctness is kept). -/
theorem claim_C5_notfound_recovery (env : Env) (i : Nat) (slots : Slots)
    (sl : Slot) (w : World) (ops : List Op)
    (hsl : dlookup slots i = some sl)
    (hedit : env.editRes sl.message = .notFound)
    (hsend : env.sendRes w.nextId = .success) :
    update_or_create env i slots w ops =
      .ok (dinsert slots i ⟨w.nextId, true⟩, ⟨w.channel ++ [w.nextId], w.nextId + 1⟩,
        ops ++ [.edit sl.message, .create w.nextId]) ∧
    dlookup (dinsert slots i ⟨w.nextId, true⟩) i = some ⟨w.nextId, true⟩ ∧
    keysOf (dinsert slots i ⟨w.nextId, true⟩) = keysOf slots ∧
    (NodupKeys slots → NodupKeys (dinsert slots i ⟨w.nextId, true⟩)) ∧
    countCreates (ops ++ [.edit sl.message, .create w.nextId]) = countCreates ops + 1 := by
  refine ⟨?_, dlookup_dinsert_self slots i _, ?_, fun h => nodupKeys_dinsert slots i _ h, ?_⟩
  · simp only [update_or_create, hsl, hedit, hsend]
  · exact keysOf_dinsert_of_mem slots i _ ((mem_keysOf_iff slots i).mpr (by rw [hsl]; rfl))
  · simp [countCreates, List.countP_append, List.countP_cons, isCreate]

/-- C5 witness: the recovery evaluated in `editNotFoundEnv` on a one-slot
dict whose remote message 10 has vanished. -/
theorem claim_C5_notfound_recovery_witness :
    update_or_create editNotFoundEnv 0 [(0, ⟨10, false⟩)] ⟨[10], 11⟩ [] =
      .ok (dinsert [(0, ⟨10, false⟩)] 0 ⟨(11 : Nat), true⟩, ⟨[10] ++ [11], 11 + 1⟩,
        [] ++ [.edit 10, .create 11]) ∧
    dlookup (dinsert [(0, ⟨10, false⟩)] 0 ⟨(11 : Nat), true⟩) 0 = some ⟨11, true⟩ ∧
    keysOf (dinsert [(0, ⟨10, false⟩)] 0 ⟨(11 : Nat), true⟩) = keysOf [(0, ⟨10, false⟩)] ∧
    (NodupKeys [(0, ⟨10, false⟩)] →
      NodupKeys (dinsert [(0, ⟨10, false⟩)] 0 ⟨(11 : Nat), true⟩)) ∧
    countCreates ([] ++ [.edit 10, .create 11]) = countCreates [] + 1 :=
  claim_C5_notfound_recovery editNotFoundEnv 0 [(0, ⟨10, false⟩)] ⟨10, false⟩
    ⟨[10], 11⟩ [] rfl rfl rfl

/-- C8: each upstream fetch makes at most 5 HTTP attempts, every
inter-attempt delay is exactly 10 seconds, and a source whose every attempt
fails contributes an empty list (after exactly 5 attempts and 4 sleeps)
instead of raising. -/
theorem claim_C8_fetch_retry {J γ γ' : Type} (renderS : J → List γ)
    (renderR : J → List γ') (fetchS fetchR : Nat → Option J) :
    (countAttempts (query_sonarr renderS fetchS 5 10).2 ≤ 5 ∧
     (∀ s, QEvent.sleep s ∈ (query_sonarr renderS fetchS 5 10).2 → s = 10) ∧
     ((∀ n, fetchS n = none) → query_sonarr renderS fetchS 5 10 =
        ([], [.attempt 0, .sleep 10, .attempt 1, .sleep 10, .attempt 2, .sleep 10,
          .attempt 3, .sleep 10, .attempt 4]))) ∧
    (countAttempts (query_radarr renderR fetchR 5 10).2 ≤ 5 ∧
     (∀ s, QEvent.sleep s ∈ (query_radarr renderR fetchR 5 10).2 → s = 10) ∧
     ((∀ n, fetchR n = none) → query_radarr renderR fetchR 5 10 =
        ([], [.attempt 0, .sleep 10, .attempt 1, .sleep 10, .attempt 2, .sleep 10,
          .attempt 3, .sleep 10, .attempt 4]))) := by
  constructor
  · refine ⟨?_, ?_, ?_⟩
    · rw [query_sonarr_events]
      simpa using (query_loop_bounds fetchS 5 10 5 0 (by omega)).1
    · rw [query_sonarr_events]
      exact (query_loop_bounds fetchS 5 10 5 0 (by omega)).2
    · intro hf
      simp [query_sonarr, query_loop, hf]
  · refine ⟨?_, ?_, ?_⟩
    · rw [query_radarr_events]
      simpa using (query_loop_bounds fetchR 5 10 5 0 (by omega)).1
    · rw [query_radarr_events]
      exact (query_loop_bounds fetchR 5 10 5 0 (by omega)).2
    · intro hf
      simp [query_radarr, query_loop, hf]

/-- C8 witness: the all-fail trace of both fetchers at concrete inputs. -/
theorem claim_C8_fetch_retry_witness :
    query_sonarr (fun j : Nat => [j]) (fun _ => none) 5 10 =
      ([], [.attempt 0, .sleep 10, .attempt 1, .sleep 10, .attempt 2, .sleep 10,
        .attempt 3, .sleep 10, .attempt 4]) :=
  (claim_C8_fetch_retry (fun j : Nat => [j]) (fun j : Nat => [j])
    (fun _ => none) (fun _ => none)).1.2.2 (fun _ => rfl)

/-- C9 counterexample: a rate-limited (429) call with a server-specified
`retry_after` of 120 seconds makes `handle_rate_limit` wait the full 120
seconds — more than the claimed 60-second bound — and the handler performs
no retry of any call (its only effect is the single sleep). -/
theorem claim_C9_rate_limit_counterexample :
    handle_rate_limit ⟨429, some 120⟩ = .done [.sleep 120] ∧ ¬ (120 ≤ 60) :=
  ⟨rfl, by decide⟩

/-- C9 (amended): on a 429 error `handle_rate_limit` sleeps for exactly the
server-specified `retry_after`, with no upper bound, and performs no retry
itself; a non-429 error is re-raised unchanged. -/
theorem claim_C9_rate_limit_behaviour :
    (∀ t, handle_rate_limit ⟨429, some t⟩ = .done [.sleep t]) ∧
    (∀ e : RLError, e.code ≠ 429 → handle_rate_limit e = .reraised e.code) := by
  constructor
  · intro t
    rfl
  · intro e h
    simp [handle_rate_limit, h]

/-- C9 witness: the amended behaviour evaluated at a non-429 error. -/
theorem claim_C9_rate_limit_behaviour_witness :
    handle_rate_limit ⟨500, none⟩ = .reraised 500 :=
  claim_C9_rate_limit_behaviour.2 ⟨500, none⟩ (by decide)

/-- C10 counterexample: with convertible integer inputs `size = 10 > 0`,
`sizeleft = -10`, the returned bar consists of 40 bar characters, not 20
(`filled_length = 20 * 20 // 10 = 40` and Python pads with a negative,
hence empty, dash run). -/
theorem claim_C10_progress_bar_counterexample :
    format_progress_bar (some 10) (some (-10)) 20 =
      "[" ++ String.mk (List.replicate 40 '█') ++ "] 200.0%" ∧
    (String.mk (List.replicate 40 '█')).length ≠ 20 :=
  ⟨rfl, by decide⟩

/-- C10 (amended): `format_progress_bar` is total; it returns
"Progress unavailable" when `size` is 0 or either argument fails integer
conversion; and for every integer `size > 0` and `sizeleft` with
`0 ≤ sizeleft ≤ size` it returns a bracketed bar of exactly 20 bar
characters followed by a percentage. -/
theorem claim_C10_progress_bar (sz sl : Int) (hsz : 0 < sz) (h0 : 0 ≤ sl) (hls : sl ≤ sz) :
    (∀ x, format_progress_bar (some 0) x 20 = "Progress unavailable") ∧
    (∀ x, format_progress_bar none x 20 = "Progress unavailable") ∧
    (∀ x, format_progress_bar x none 20 = "Progress unavailable") ∧
    ∃ f pct, format_progress_bar (some sz) (some sl) 20 =
        "[" ++ String.mk (List.replicate f '█' ++ List.replicate (20 - f) '-') ++
          "] " ++ pct ++ "%" ∧
      f ≤ 20 ∧
      (String.mk (List.replicate f '█' ++ List.replicate (20 - f) '-')).length = 20 := by
  refine ⟨fun x => by cases x <;> rfl, fun x => rfl, fun x => by cases x <;> rfl, ?_⟩
  have hne : sz ≠ 0 := by omega
  have hF0 : 0 ≤ Int.fdiv ((20 : Int) * (sz - sl)) sz := by
    rw [Int.fdiv_eq_ediv _ (le_of_lt hsz)]
    exact Int.ediv_nonneg (by omega) (le_of_lt hsz)
  have hF20 : Int.fdiv ((20 : Int) * (sz - sl)) sz ≤ 20 := by
    rw [Int.fdiv_eq_ediv _ (le_of_lt hsz)]
    calc (20 : Int) * (sz - sl) / sz ≤ 20 * sz / sz :=
          Int.ediv_le_ediv hsz (by omega)
      _ = 20 := Int.mul_ediv_cancel 20 hne
  refine ⟨(Int.fdiv ((20 : Int) * (sz - sl)) sz).toNat, fmtPct (sz - sl) sz, ?_, by omega, ?_⟩
  · have ht : ((20 : Int) - Int.fdiv ((20 : Int) * (sz - sl)) sz).toNat =
        20 - (Int.fdiv ((20 : Int) * (sz - sl)) sz).toNat := by omega
    simp only [format_progress_bar, Nat.cast_ofNat, if_neg hne]
    rw [ht]
  · have : (List.replicate (Int.fdiv ((20 : Int) * (sz - sl)) sz).toNat '█' ++
        List.replicate (20 - (Int.fdiv ((20 : Int) * (sz - sl)) sz).toNat) '-').length = 20 := by
      rw [List.length_append, List.length_replicate, List.length_replicate]
      omega
    simpa [String.length] using this

/-- C10 witness: the amended statement evaluated at `size = 4`,
`sizeleft = 1`. -/
theorem claim_C10_progress_bar_witness :
    (∀ x, format_progress_bar (some 0) x 20 = "Progress unavailable") ∧
    (∀ x, format_progress_bar none x 20 = "Progress unavailable") ∧
    (∀ x, format_progress_bar x none 20 = "Progress unavailable") ∧
    ∃ f pct, format_progress_bar (some 4) (some 1) 20 =
        "[" ++ String.mk (List.replicate f '█' ++ List.replicate (20 - f) '-') ++
          "] " ++ pct ++ "%" ∧
      f ≤ 20 ∧
      (String.mk (List.replicate f '█' ++ List.replicate (20 - f) '-')).length = 20 :=
  claim_C10_progress_bar 4 1 (by decide) (by decide) (by decide)

/-- Unfolding of `handle_messages` on the empty embed list. -/
theorem handle_messages_nil {α : Type*} (env : Env) (slots : Slots) (dm : Option Nat)
    (w : World) :
    handle_messages env ([] : List α) slots dm w =
      match delete_slots_loop env slots slots w [] with
      | .error er => .error er
      | .ok (slots', w', ops) =>
        match dm with
        | some d => .ok (some d, slots', w', ops)
        | none =>
          match env.sendRes w'.nextId with
          | .success => .ok (some w'.nextId, slots',
              ⟨w'.channel ++ [w'.nextId], w'.nextId + 1⟩, ops ++ [.create w'.nextId])
          | _ => .error () := rfl

/-- C1: reconciling the same non-empty embed list twice in a row, starting
the second pass from the slot map and default message the first pass left,
issues zero create and zero delete calls on the second pass — every call it
records is an edit — and returns the world (channel contents included)
completely unchanged, all remote calls succeeding (`okEnv`). -/
theorem claim_C1_idempotence {α : Type*} (embeds : List α) (slots : Slots)
    (dm : Option Nat) (w : World) (hne : embeds ≠ []) (hnd : NodupKeys slots) :
    ∃ s₁ w₁ ops₁ s₂ ops₂,
      handle_messages okEnv embeds slots dm w = .ok (none, s₁, w₁, ops₁) ∧
      handle_messages okEnv embeds s₁ none w₁ = .ok (none, s₂, w₁, ops₂) ∧
      countCreates ops₂ = 0 ∧ countDeletes ops₂ = 0 ∧
      (∀ o ∈ ops₂, ∃ m, o = Op.edit m) := by
  obtain ⟨s₁, w₁, ops₁, hrun1, hnd₁, hin₁, hstale₁, habs₁⟩ :=
    handle_messages_nonempty_spec okEnv (fun _ => rfl) (fun _ => rfl)
      (fun m => by simp) embeds hne slots dm w hnd
  have h1 : ∀ k, k < (embeds.length + 9) / 10 → (dlookup s₁ k).isSome := by
    intro k hk
    obtain ⟨m, hm⟩ := hin₁ k hk
    rw [hm]
    rfl
  have h2 : ∀ k, (embeds.length + 9) / 10 ≤ k → dlookup s₁ k = none := by
    intro k hk
    cases hb : dlookup slots k with
    | none => exact habs₁ k hk hb
    | some sl => simpa using (hstale₁ k sl hk hb).2
  cases embeds with
  | nil => exact absurd rfl hne
  | cons e es =>
  have hBlen : (split_embeds (e :: es) 10).length = ((e :: es).length + 9) / 10 := by
    rw [split_embeds_length]
    omega
  have hpres : ∀ k, 0 ≤ k → k < 0 + (split_embeds (e :: es) 10).length →
      (dlookup (markInactive s₁) k).isSome := by
    intro k _ hk
    rw [dlookup_markInactive]
    have hs := h1 k (by rw [Nat.zero_add, hBlen] at hk; exact hk)
    cases hx : dlookup s₁ k with
    | none => rw [hx] at hs; simp at hs
    | some v => simp
  obtain ⟨s₂, newOps, hrun₂, hops₂, hchar₂, hkeys₂⟩ :=
    process_batches_all_present okEnv (fun _ => rfl) (split_embeds (e :: es) 10) 0
      (markInactive s₁) w₁ [] hpres
  have hrun₂' : process_batches okEnv 0 (split_embeds (e :: es) 10)
      (markInactive s₁) w₁ [] = .ok (s₂, w₁, newOps) := by
    simpa using hrun₂
  have hnd₂ : NodupKeys s₂ := by
    unfold NodupKeys
    rw [hkeys₂, keysOf_markInactive]
    exact hnd₁
  have hact : ∀ p ∈ s₂, (p : Nat × Slot).2.active = true := by
    intro p hp
    have hlk := dlookup_of_mem s₂ p.1 p.2 hnd₂ hp
    have hkm : p.1 ∈ keysOf s₂ := (mem_keysOf_iff s₂ p.1).mpr (by rw [hlk]; rfl)
    rw [hkeys₂, keysOf_markInactive] at hkm
    have hsome : (dlookup s₁ p.1).isSome := (mem_keysOf_iff s₁ p.1).mp hkm
    have hklt : p.1 < ((e :: es).length + 9) / 10 := by
      by_contra hc
      push_neg at hc
      rw [h2 p.1 hc] at hsome
      simp at hsome
    have hch := hchar₂ p.1
    rw [hlk, if_pos ⟨Nat.zero_le _, by rw [Nat.zero_add, hBlen]; exact hklt⟩,
      dlookup_markInactive] at hch
    cases hx : dlookup s₁ p.1 with
    | none => rw [hx] at hch; simp at hch
    | some v =>
      rw [hx] at hch
      simp only [Option.map_some'] at hch
      rw [Option.some.injEq] at hch
      rw [hch]
  have hclean := cleanup_loop_all_active okEnv s₂ s₂ w₁ newOps hact
  refine ⟨s₁, w₁, ops₁, s₂, newOps, hrun1, ?_, ?_, ?_, hops₂⟩
  · rw [handle_messages_ne_nil]
    have hds : default_sweep okEnv none w₁ = .ok (w₁, []) := rfl
    simp only [hds, hrun₂', hclean]
  · rw [countCreates, List.countP_eq_zero]
    intro o ho
    obtain ⟨m, rfl⟩ := hops₂ o ho
    simp [isCreate]
  · rw [countDeletes, List.countP_eq_zero]
    intro o ho
    obtain ⟨m, rfl⟩ := hops₂ o ho
    simp [isDelete]

/-- C1 witness: the idempotence theorem applied to one embed on an empty
initial state. -/
theorem claim_C1_idempotence_witness :
    ∃ s₁ w₁ ops₁ s₂ ops₂,
      handle_messages okEnv [()] [] none ⟨[], 0⟩ = .ok (none, s₁, w₁, ops₁) ∧
      handle_messages okEnv [()] s₁ none w₁ = .ok (none, s₂, w₁, ops₂) ∧
      countCreates ops₂ = 0 ∧ countDeletes ops₂ = 0 ∧
      (∀ o ∈ ops₂, ∃ m, o = Op.edit m) :=
  claim_C1_idempotence [()] [] none ⟨[], 0⟩ (by simp) (by simp [NodupKeys])

/-- C3: at the end of every reconciliation cycle under successful remote
calls, the `EMPTY` placeholder (default message) and numbered page slots are
mutually exclusive: if the returned default message exists the slot map is
empty, and if the slot map is non-empty the returned default message is
`None`. -/
theorem claim_C3_mutual_exclusion {α : Type*} (embeds : List α) (slots : Slots)
    (dm : Option Nat) (w : World) (hnd : NodupKeys slots) :
    ∃ dm' s' w' ops, handle_messages okEnv embeds slots dm w = .ok (dm', s', w', ops) ∧
      (dm'.isSome → s' = []) ∧ (s' ≠ [] → dm' = none) := by
  cases embeds with
  | cons e es =>
    obtain ⟨s', w', ops, hrun, _, _, _, _⟩ :=
      handle_messages_nonempty_spec okEnv (fun _ => rfl) (fun _ => rfl)
        (fun m => by simp) (e :: es) (by simp) slots dm w hnd
    exact ⟨none, s', w', ops, hrun, fun h => by simp at h, fun _ => rfl⟩
  | nil =>
    rw [handle_messages_nil, delete_slots_loop_okEnv,
      foldl_derase_eq_nil slots slots (fun x hx => hx)]
    cases dm with
    | some d =>
      exact ⟨some d, [], _, _, rfl, fun _ => rfl, fun h => absurd rfl h⟩
    | none =>
      exact ⟨some w.nextId, [], _, _, rfl, fun _ => rfl, fun h => absurd rfl h⟩

/-- C3 witness: mutual exclusion evaluated on a concrete shrinking cycle. -/
theorem claim_C3_mutual_exclusion_witness :
    ∃ dm' s' w' ops,
      handle_messages okEnv ([] : List Unit) [(0, ⟨7, true⟩)] none ⟨[7], 8⟩ =
        .ok (dm', s', w', ops) ∧
      (dm'.isSome → s' = []) ∧ (s' ≠ [] → dm' = none) :=
  claim_C3_mutual_exclusion [] [(0, ⟨7, true⟩)] none ⟨[7], 8⟩ (by simp [NodupKeys, keysOf])

/-- C4: in every cycle with items present, each slot whose key was not
re-targeted (every key at or beyond the new batch count) receives a delete
call and is removed from the map (all remote calls succeeding); in
particular, reconciling 23 cards (3 pages) from an empty state and then 5
cards (1 page) deletes exactly the 2 stale page slots and leaves exactly 1
slot, which was edited in place. -/
theorem claim_C4_shrink_cleanup :
    (∀ (α : Type) (embeds : List α) (slots : Slots) (dm : Option Nat) (w : World),
      embeds ≠ [] → NodupKeys slots →
      ∃ s' w' ops, handle_messages okEnv embeds slots dm w = .ok (none, s', w', ops) ∧
        ∀ k sl, (embeds.length + 9) / 10 ≤ k → dlookup slots k = some sl →
          Op.delete sl.message ∈ ops ∧ dlookup s' k = none) ∧
    handle_messages okEnv (List.replicate 23 ()) [] none ⟨[], 0⟩ =
      .ok (none, [(0, ⟨0, true⟩), (1, ⟨1, true⟩), (2, ⟨2, true⟩)], ⟨[0, 1, 2], 3⟩,
        [.create 0, .create 1, .create 2]) ∧
    handle_messages okEnv (List.replicate 5 ())
        [(0, ⟨0, true⟩), (1, ⟨1, true⟩), (2, ⟨2, true⟩)] none ⟨[0, 1, 2], 3⟩ =
      .ok (none, [(0, ⟨0, true⟩)], ⟨[0], 3⟩, [.edit 0, .delete 1, .delete 2]) := by
  refine ⟨?_, by rfl, by rfl⟩
  intro α embeds slots dm w hne hnd
  obtain ⟨s', w', ops, hrun, _, _, hstale, _⟩ :=
    handle_messages_nonempty_spec okEnv (fun _ => rfl) (fun _ => rfl)
      (fun m => by simp) embeds hne slots dm w hnd
  refine ⟨s', w', ops, hrun, fun k sl hk hb => ?_⟩
  obtain ⟨hdel, hnone⟩ := hstale k sl hk hb
  exact ⟨hdel, by simpa using hnone⟩

/-- C4 witness: the general cleanup law applied to the concrete 3-page to
1-page shrink. -/
theorem claim_C4_shrink_cleanup_witness :
    ∃ s' w' ops,
      handle_messages okEnv (List.replicate 5 ())
        [(0, ⟨0, true⟩), (1, ⟨1, true⟩), (2, ⟨2, true⟩)] none ⟨[0, 1, 2], 3⟩ =
        .ok (none, s', w', ops) ∧
      ∀ k sl, ((List.replicate 5 ()).length + 9) / 10 ≤ k →
        dlookup [(0, ⟨0, true⟩), (1, ⟨1, true⟩), (2, ⟨2, true⟩)] k = some sl →
        Op.delete sl.message ∈ ops ∧ dlookup s' k = none :=
  claim_C4_shrink_cleanup.1 Unit (List.replicate 5 ())
    [(0, ⟨0, true⟩), (1, ⟨1, true⟩), (2, ⟨2, true⟩)] none ⟨[0, 1, 2], 3⟩
    (by simp) (by simp [NodupKeys, keysOf])

/-- C6 counterexample: with an empty item list, one page slot and a stale
`EMPTY` placeholder (default message 5) present, the cycle issues zero
create calls — the placeholder is reused, not deleted and recreated as the
claim's "delete every existing slot … then creates the EMPTY placeholder"
requires — and the only delete touches the page slot's message 9, not the
placeholder. -/
theorem claim_C6_empty_transition_counterexample :
    handle_messages okEnv ([] : List Unit) [(0, ⟨9, true⟩)] (some 5) ⟨[9, 5], 10⟩ =
      .ok (some 5, [], ⟨[5], 10⟩, [.delete 9]) ∧
    countCreates [.delete 9] = 0 :=
  ⟨rfl, rfl⟩

/-- C6 (amended): in every cycle with an empty item list, every numbered
page slot is deleted (one delete call per slot, all succeeding in `okEnv`),
and the `EMPTY` placeholder is created only when none is currently
displayed — a stale placeholder is kept in place rather than deleted and
recreated — so the cycle ends with the placeholder as the only message in
the channel and an empty slot map. -/
theorem claim_C6_empty_transition (slots : Slots) (dm : Option Nat) (nid : Nat) :
    handle_messages okEnv ([] : List Unit) slots dm
        ⟨slots.map (fun p => p.2.message) ++ dm.toList, nid⟩ =
      match dm with
      | some d => .ok (some d, [], ⟨[d], nid⟩,
          slots.map (fun p => Op.delete p.2.message))
      | none => .ok (some nid, [], ⟨[nid], nid + 1⟩,
          slots.map (fun p => Op.delete p.2.message) ++ [.create nid]) := by
  rw [handle_messages_nil, delete_slots_loop_okEnv,
    foldl_derase_eq_nil slots slots (fun x hx => hx)]
  have hch : slots.foldl (fun c p => c.erase p.2.message)
      (World.channel ⟨slots.map (fun p => p.2.message) ++ dm.toList, nid⟩) = dm.toList :=
    foldl_erase_channel slots dm.toList
  rw [hch]
  cases dm <;> simp

/-- C7 counterexample: batch 1's slot (message 11) is stale; its remote
delete raises not-found, the cycle continues and completes, but the slot is
NOT removed from the local map — `del bot_messages[...]` sits after the
awaited delete inside the `try`, so the not-found path skips it — refuting
"the inactive slot is still removed from the local map". -/
theorem claim_C7_notfound_delete_counterexample :
    handle_messages delNotFoundEnv [(), (), (), (), ()]
        [(0, ⟨10, true⟩), (1, ⟨11, true⟩)] none ⟨[10, 11], 12⟩ =
      .ok (none, [(0, ⟨10, true⟩), (1, ⟨11, false⟩)], ⟨[10, 11], 12⟩,
        [.edit 10, .delete 11]) ∧
    dlookup [(0, ⟨10, true⟩), (1, ⟨11, false⟩)] 1 = some ⟨11, false⟩ :=
  ⟨rfl, rfl⟩

/-- C7 (amended): a delete of a stale slot whose remote message reports
not-found is treated as a no-op, not an error: the cycle continues and
completes, the delete call is still recorded (attempted), but the inactive
slot is removed from the local map only when the remote delete succeeds; on
not-found the entry remains in the map, inactive, with its dead handle. -/
theorem claim_C7_notfound_delete {α : Type*} (env : Env) (embeds : List α)
    (slots : Slots) (dm : Option Nat) (w : World) (k : Nat) (sl : Slot)
    (hne : embeds ≠ []) (hnd : NodupKeys slots)
    (Hedit : ∀ m, env.editRes m = .success)
    (Hsend : ∀ m, env.sendRes m = .success)
    (Hdel : ∀ m, env.delRes m ≠ .other)
    (hk : (embeds.length + 9) / 10 ≤ k)
    (hbind : dlookup slots k = some sl)
    (hnf : env.delRes sl.message = .notFound) :
    ∃ s' w' ops, handle_messages env embeds slots dm w = .ok (none, s', w', ops) ∧
      Op.delete sl.message ∈ ops ∧
      dlookup s' k = some ⟨sl.message, false⟩ := by
  obtain ⟨s', w', ops, hrun, _, _, hstale, _⟩ :=
    handle_messages_nonempty_spec env Hedit Hsend Hdel embeds hne slots dm w hnd
  obtain ⟨hdel, hkeep⟩ := hstale k sl hk hbind
  refine ⟨s', w', ops, hrun, hdel, ?_⟩
  rw [hkeep, if_neg (by rw [hnf]; exact fun h => nomatch h)]

/-- C7 witness: the amended statement evaluated in `delNotFoundEnv` on the
concrete two-slot state shrinking to one page. -/
theorem claim_C7_notfound_delete_witness :
    ∃ s' w' ops,
      handle_messages delNotFoundEnv [(), (), (), (), ()]
        [(0, ⟨10, true⟩), (1, ⟨11, true⟩)] none ⟨[10, 11], 12⟩ =
        .ok (none, s', w', ops) ∧
      Op.delete 11 ∈ ops ∧
      dlookup s' 1 = some ⟨11, false⟩ :=
  claim_C7_notfound_delete delNotFoundEnv [(), (), (), (), ()]
    [(0, ⟨10, true⟩), (1, ⟨11, true⟩)] none ⟨[10, 11], 12⟩ 1 ⟨11, true⟩
    (by simp) (by simp [NodupKeys, keysOf]) (fun _ => rfl) (fun _ => rfl)
    (fun m => by by_cases h : m = 11 <;> simp [delNotFoundEnv, h])
    (by simp) rfl rfl

end ArrTracker
